import Mathlib

/-!
Shallow embedding of `scrapegraphai/graphs/json_scraper_multi_graph.py`
(class `JSONScraperMultiGraph`).

Python values that matter to the claims (the configuration mapping and the
optional schema) are modelled as references into an explicit heap of objects,
so that deep copying and mutation can be stated.  Strings, ints and `None`
are immutable atoms; lists and dicts are mutable heap objects holding
references to their elements.
-/

/-- Immutable scalar Python values: strings, integers and `None`. -/
inductive Atom where
  | vstr (s : String)
  | vint (n : Int)
  | vnone
  deriving DecidableEq, Repr

/-- A Python reference: either an immutable immediate value or the address
of a mutable heap object. -/
inductive Ref where
  | imm (v : Atom)
  | addr (a : Nat)
  deriving DecidableEq, Repr

/-- A heap object: an atom, a mutable list of references, or a mutable dict
from string keys to references. -/
inductive PObj where
  | atom (v : Atom)
  | lst (elems : List Ref)
  | dct (entries : List (String × Ref))
  deriving DecidableEq, Repr

/-- The heap: addresses are indices into a list of objects. -/
abbrev Heap := List PObj

/-- Read the object at an address; a dangling address reads as `None`. -/
def heapGet (h : Heap) (a : Nat) : PObj :=
  h.getD a (.atom .vnone)

/-- The value tree denoted by a reference, unfolded to a given depth.
This is the observational content of a Python value: two references denote
the same data exactly when their trees agree at every depth. -/
inductive PTree where
  | leaf (v : Atom)
  | tlist (l : List PTree)
  | tdict (l : List (String × PTree))
  | cutoff

/-- Unfold the value reachable from a reference into a tree, spending one
unit of fuel per heap dereference. -/
def readTree (h : Heap) : Nat → Ref → PTree
  | 0, _ => .cutoff
  | _ + 1, .imm v => .leaf v
  | fuel + 1, .addr a =>
    match heapGet h a with
    | .atom v => .leaf v
    | .lst rs => .tlist (rs.map (fun r => readTree h fuel r))
    | .dct es => .tdict (es.map (fun e => (e.1, readTree h fuel e.2)))

/-- Shift the address of a reference by `n` (immediates are unchanged). -/
def shiftRef (n : Nat) : Ref → Ref
  | .imm v => .imm v
  | .addr a => .addr (a + n)

/-- Shift every reference held by an object by `n`. -/
def shiftObj (n : Nat) : PObj → PObj
  | .atom v => .atom v
  | .lst rs => .lst (rs.map (shiftRef n))
  | .dct es => .dct (es.map (fun e => (e.1, shiftRef n e.2)))

/-- Modelled from the spec: `scrapegraphai.utils.copy.safe_deepcopy` is not
part of the excerpt; the spec describes it as "deep-copy-based configuration
isolation" producing a copy "sharing no mutable structure" with the
original.  It is modelled as duplicating the heap, with every address of
the duplicate shifted past the original heap, and returning the shifted
root: the copy is structurally identical and reaches only fresh objects. -/
def safe_deepcopy (h : Heap) (r : Ref) : Heap × Ref :=
  (h ++ h.map (shiftObj h.length), shiftRef h.length r)

/-- Modelled from the spec: Python's `copy.deepcopy` (used for the schema)
is likewise not part of the excerpt; it has the same observable deep-copy
semantics and is modelled by the same heap-duplicating construction. -/
def deepcopy (h : Heap) (r : Ref) : Heap × Ref :=
  safe_deepcopy h r

/-- Dictionary lookup `d.get k`: look up a key in the dict object a reference points to. -/
def dictGet (h : Heap) (r : Ref) (k : String) : Option Ref :=
  match r with
  | .imm _ => none
  | .addr a =>
    match heapGet h a with
    | .dct es => (es.find? (fun e => e.1 = k)).map (fun e => e.2)
    | _ => none

/-- The addresses held directly by an object. -/
def PObj.childAddrs : PObj → List Nat
  | .atom _ => []
  | .lst rs => rs.filterMap (fun r => match r with | .imm _ => none | .addr a => some a)
  | .dct es => es.filterMap (fun e => match e.2 with | .imm _ => none | .addr a => some a)

/-- A heap is closed when every reference held by one of its objects points
inside the heap (the situation of any real Python heap). -/
def ClosedHeap (h : Heap) : Prop :=
  ∀ o ∈ h, ∀ r ∈ o.childAddrs, r < h.length

/-- A reference is valid for a heap when any address it holds is inside. -/
def RefIn (h : Heap) : Ref → Prop
  | .imm _ => True
  | .addr a => a < h.length

/-- A reference at or above the watermark `m`. -/
def RefHigh (m : Nat) : Ref → Prop
  | .imm _ => True
  | .addr a => m ≤ a

/-- Every object at or above the watermark holds only references at or
above the watermark: the high part of the heap is closed upwards. -/
def HighHeap (H : Heap) (m : Nat) : Prop :=
  ∀ a, m ≤ a → ∀ c ∈ (heapGet H a).childAddrs, m ≤ c

/-- Two references in two heaps denote the same data when their trees agree
at every unfolding depth. -/
def StructEq (h1 : Heap) (r1 : Ref) (h2 : Heap) (r2 : Ref) : Prop :=
  ∀ fuel, readTree h1 fuel r1 = readTree h2 fuel r2

/-!
The two pre-built processing nodes and `BaseGraph`.  Their constructors are
external to the excerpt; each is modelled as a record of exactly the fields
`_create_graph` passes to it.
-/

/-- The fields `_create_graph` passes to the `GraphIteratorNode` constructor.
`graph_instance` is the class handed to the node, recorded by name. -/
structure GraphIteratorNode where
  input : String
  output : List String
  graph_instance : String
  scraper_config : Ref
  schema : Ref
  deriving DecidableEq, Repr

/-- The fields `_create_graph` passes to the `MergeAnswersNode` constructor. -/
structure MergeAnswersNode where
  input : String
  output : List String
  llm_model : Ref
  schema : Ref
  deriving DecidableEq, Repr

/-- A node of the wired graph. -/
inductive GNode where
  | iterator (n : GraphIteratorNode)
  | merge (n : MergeAnswersNode)
  deriving DecidableEq, Repr

/-- The fields `_create_graph` passes to the `BaseGraph` constructor. -/
structure BaseGraph where
  nodes : List GNode
  edges : List (GNode × GNode)
  entry_point : GNode
  graph_name : String
  deriving DecidableEq, Repr

/-- The attributes of a `JSONScraperMultiGraph` object.  `prompt`, `source`,
`llm_model`, `final_state` and `execution_info` are set by the external
`AbstractGraph` base class and the `run` method; the rest are set by
`__init__` of the excerpt. -/
structure JSONScraperMultiGraph where
  prompt : String
  source : List String
  llm_model : Ref
  max_results : Ref
  copy_config : Ref
  copy_schema : Ref
  heap : Heap
  graph : BaseGraph
  final_state : Option (List (String × PTree))
  execution_info : PTree

namespace JSONScraperMultiGraph

/-- Embeds `_create_graph` (lines 57-100 of the source): builds the
`GraphIteratorNode`, the `MergeAnswersNode` and wires them into a
`BaseGraph`.  It reads `self.copy_config`, `self.copy_schema` and
`self.llm_model`, which are passed here explicitly. -/
def create_graph (copy_config copy_schema llm_model : Ref) : BaseGraph :=
  let graph_iterator_node : GraphIteratorNode :=
    { input := "user_prompt & jsons"
      output := ["results"]
      graph_instance := "JSONScraperGraph"
      scraper_config := copy_config
      schema := copy_schema }
  let merge_answers_node : MergeAnswersNode :=
    { input := "user_prompt & results"
      output := ["answer"]
      llm_model := llm_model
      schema := copy_schema }
  { nodes := [.iterator graph_iterator_node, .merge merge_answers_node]
    edges := [(.iterator graph_iterator_node, .merge merge_answers_node)]
    entry_point := .iterator graph_iterator_node
    graph_name := "JSONScraperMultiGraph" }

/-- Embeds `__init__` (lines 46-55 of the source): reads `max_results` from the
original configuration, deep-copies the configuration and the schema, and
delegates to `AbstractGraph.__init__`, which stores `prompt` and `source`,
derives `llm_model` from the configuration (external; passed here as a
parameter) and sets `self.graph = self._create_graph()`. -/
def init (prompt : String) (source : List String) (config : Ref)
    (schema : Ref) (llm_model : Ref) (h : Heap) : JSONScraperMultiGraph :=
  let max_results := (dictGet h config "max_results").getD (.imm (.vint 3))
  let copied := safe_deepcopy h config
  let copied2 := deepcopy copied.1 schema
  { prompt := prompt
    source := source
    llm_model := llm_model
    max_results := max_results
    copy_config := copied.2
    copy_schema := copied2.2
    heap := copied2.1
    graph := create_graph copied.2 copied2.2 llm_model
    final_state := none
    execution_info := .cutoff }

/-- The execution engine `self.graph.execute`: external.  It takes the
input mapping and either raises (modelled as `Except.error`) or returns the
pair of the final state and the execution info. -/
def Engine : Type :=
  List (String × PTree) → Except String (List (String × PTree) × PTree)

/-- The input mapping built by `run` (line 109 of the source):
`{"user_prompt": self.prompt, "jsons": self.source}`. -/
def run_inputs (g : JSONScraperMultiGraph) : List (String × PTree) :=
  [("user_prompt", .leaf (.vstr g.prompt)),
   ("jsons", .tlist (g.source.map (fun s => .leaf (.vstr s))))]

/-- Look up a key in a result mapping, as `dict.get` does. -/
def stateGet (st : List (String × PTree)) (k : String) : Option PTree :=
  (st.find? (fun e => e.1 = k)).map (fun e => e.2)

/-- Embeds `run` (lines 102-112 of the source): builds the input mapping, calls
the external engine, stores the returned pair in `final_state` and
`execution_info`, and returns `self.final_state.get("answer",
"No answer found.")`.  An exception from the engine propagates (there is no
handler in `run`). -/
def run (g : JSONScraperMultiGraph) (execute : Engine) :
    Except String (PTree × JSONScraperMultiGraph) :=
  match execute (run_inputs g) with
  | .error e => .error e
  | .ok (fs, ei) =>
    .ok ((stateGet fs "answer").getD (.leaf (.vstr "No answer found.")),
      { g with final_state := some fs, execution_info := ei })

end JSONScraperMultiGraph

/-!
Lemmas about the heap model: the deep copy is structurally equal to the
original, lives entirely in the fresh part of the heap, and is therefore
unaffected by mutation of any pre-existing object.
-/

/-- Reading below the old length is unaffected by appending objects. -/
theorem heapGet_append_lt (h ext : Heap) (a : Nat) (ha : a < h.length) :
    heapGet (h ++ ext) a = heapGet h a := by
  unfold heapGet
  rw [List.getD_eq_getElem?_getD, List.getD_eq_getElem?_getD,
    List.getElem?_append_left ha]

/-- Reading at an address shifted past the old heap reads the shifted
duplicate of the original object (or dangles on both sides). -/
theorem heapGet_copy (h : Heap) (a : Nat) :
    heapGet (h ++ h.map (shiftObj h.length)) (a + h.length)
      = shiftObj h.length (heapGet h a) := by
  unfold heapGet
  rw [List.getD_eq_getElem?_getD, List.getD_eq_getElem?_getD,
    List.getElem?_append_right (Nat.le_add_left h.length a),
    Nat.add_sub_cancel, List.getElem?_map]
  cases hx : h[a]? with
  | none => simp [shiftObj]
  | some o => simp

/-- Shifting an object shifts each of its child addresses. -/
theorem childAddrs_shiftObj (n : Nat) (o : PObj) :
    (shiftObj n o).childAddrs = o.childAddrs.map (· + n) := by
  cases o with
  | atom v => rfl
  | lst rs =>
    show (rs.map (shiftRef n)).filterMap _ = (rs.filterMap _).map _
    rw [List.filterMap_map, List.map_filterMap]
    apply List.filterMap_congr
    intro r _
    cases r <;> rfl
  | dct es =>
    show (es.map _).filterMap _ = (es.filterMap _).map _
    rw [List.filterMap_map, List.map_filterMap]
    apply List.filterMap_congr
    intro e _
    obtain ⟨k, r⟩ := e
    cases r <;> rfl

/-- The copied value reads back the same tree as the original, at every
depth: the deep copy is structurally equal to its source. -/
theorem readTree_copy (h : Heap) :
    ∀ fuel r, readTree (h ++ h.map (shiftObj h.length)) fuel (shiftRef h.length r)
      = readTree h fuel r := by
  intro fuel
  induction fuel with
  | zero => intro r; rfl
  | succ fuel ih =>
    intro r
    cases r with
    | imm v => rfl
    | addr a =>
      show readTree _ (fuel + 1) (.addr (a + h.length)) = readTree h (fuel + 1) (.addr a)
      simp only [readTree, heapGet_copy]
      cases heapGet h a with
      | atom v => rfl
      | lst rs =>
        simp only [shiftObj, List.map_map]
        exact congrArg PTree.tlist
          (List.map_eq_map_iff.mpr (fun r _ => ih r))
      | dct es =>
        simp only [shiftObj, List.map_map]
        refine congrArg PTree.tdict (List.map_eq_map_iff.mpr (fun e _ => ?_))
        exact congrArg (fun t => (e.1, t)) (ih e.2)

/-- In a closed heap, a valid reference reads the same tree after any
objects are appended to the heap. -/
theorem readTree_extend (h ext : Heap) (hc : ClosedHeap h) :
    ∀ fuel r, RefIn h r → readTree (h ++ ext) fuel r = readTree h fuel r := by
  intro fuel
  induction fuel with
  | zero => intro r _; rfl
  | succ fuel ih =>
    intro r hr
    cases r with
    | imm v => rfl
    | addr a =>
      have ha : a < h.length := hr
      have hmem : heapGet h a ∈ h := by
        unfold heapGet
        rw [List.getD_eq_getElem?_getD, List.getElem?_eq_getElem ha]
        exact List.getElem_mem ha
      simp only [readTree, heapGet_append_lt h ext a ha]
      cases ho : heapGet h a with
      | atom v => rfl
      | lst rs =>
        refine congrArg PTree.tlist (List.map_eq_map_iff.mpr (fun r hrr => ?_))
        apply ih
        cases r with
        | imm v => trivial
        | addr c =>
          refine hc _ hmem c ?_
          rw [ho]
          exact List.mem_filterMap.mpr ⟨.addr c, hrr, rfl⟩
      | dct es =>
        refine congrArg PTree.tdict (List.map_eq_map_iff.mpr (fun e hee => ?_))
        refine congrArg (fun t => (e.1, t)) (ih e.2 ?_)
        cases he : e.2 with
        | imm v => trivial
        | addr c =>
          refine hc _ hmem c ?_
          rw [ho]
          exact List.mem_filterMap.mpr ⟨e, hee, by rw [he]⟩

/-- Setting an address is invisible at a different address. -/
theorem heapGet_set_ne (H : Heap) (b a : Nat) (o : PObj) (hne : b ≠ a) :
    heapGet (H.set b o) a = heapGet H a := by
  unfold heapGet
  rw [List.getD_eq_getElem?_getD, List.getD_eq_getElem?_getD,
    List.getElem?_set_ne hne]

/-- Mutating an object below the watermark does not change the tree read
from any reference at or above the watermark, provided the high part of
the heap is closed upwards. -/
theorem readTree_set (H : Heap) (m b : Nat) (o : PObj) (hh : HighHeap H m)
    (hb : b < m) :
    ∀ fuel r, RefHigh m r → readTree (H.set b o) fuel r = readTree H fuel r := by
  intro fuel
  induction fuel with
  | zero => intro r _; rfl
  | succ fuel ih =>
    intro r hr
    cases r with
    | imm v => rfl
    | addr a =>
      have ha : m ≤ a := hr
      have hba : b ≠ a := Nat.ne_of_lt (Nat.lt_of_lt_of_le hb ha)
      simp only [readTree, heapGet_set_ne H b a o hba]
      cases ho : heapGet H a with
      | atom v => rfl
      | lst rs =>
        refine congrArg PTree.tlist (List.map_eq_map_iff.mpr (fun r hrr => ?_))
        apply ih
        cases r with
        | imm v => trivial
        | addr c =>
          refine hh a ha c ?_
          rw [ho]
          exact List.mem_filterMap.mpr ⟨.addr c, hrr, rfl⟩
      | dct es =>
        refine congrArg PTree.tdict (List.map_eq_map_iff.mpr (fun e hee => ?_))
        refine congrArg (fun t => (e.1, t)) (ih e.2 ?_)
        cases he : e.2 with
        | imm v => trivial
        | addr c =>
          refine hh a ha c ?_
          rw [ho]
          exact List.mem_filterMap.mpr ⟨e, hee, by rw [he]⟩

/-- The duplicated half of a copied heap only holds references into itself:
the copy region is closed upwards at the old length. -/
theorem highHeap_copy_base (H : Heap) :
    HighHeap (H ++ H.map (shiftObj H.length)) H.length := by
  intro a ha c hc
  have hae : a - H.length + H.length = a := Nat.sub_add_cancel ha
  rw [← hae, heapGet_copy, childAddrs_shiftObj] at hc
  obtain ⟨c0, _, hc0⟩ := List.mem_map.mp hc
  rw [← hc0]
  exact Nat.le_add_left H.length c0

/-- Copying a heap preserves upward closure at any watermark at or below
the old length. -/
theorem highHeap_copy_mono (H : Heap) (m : Nat) (hm : HighHeap H m)
    (hml : m ≤ H.length) : HighHeap (H ++ H.map (shiftObj H.length)) m := by
  intro a ha c hc
  by_cases hlt : a < H.length
  · rw [heapGet_append_lt H _ a hlt] at hc
    exact hm a ha c hc
  · have ha2 : H.length ≤ a := Nat.le_of_not_lt hlt
    exact Nat.le_trans hml (highHeap_copy_base H a ha2 c hc)

/-- Copying a closed heap yields a closed heap. -/
theorem closedHeap_copy (h : Heap) (hc : ClosedHeap h) :
    ClosedHeap (h ++ h.map (shiftObj h.length)) := by
  intro o ho r hr
  have hlen : (h ++ h.map (shiftObj h.length)).length = h.length + h.length := by
    simp
  rw [hlen]
  rcases List.mem_append.mp ho with h1 | h2
  · exact Nat.lt_of_lt_of_le (hc o h1 r hr) (Nat.le_add_right _ _)
  · obtain ⟨o0, ho0, rfl⟩ := List.mem_map.mp h2
    rw [childAddrs_shiftObj] at hr
    obtain ⟨c0, hc0, rfl⟩ := List.mem_map.mp hr
    exact Nat.add_lt_add_right (hc o0 ho0 c0 hc0) h.length

namespace JSONScraperMultiGraph

/-- The heap after construction: the original heap copied twice over. -/
theorem init_heap_def (p : String) (s : List String) (config schema lm : Ref)
    (h : Heap) :
    (init p s config schema lm h).heap
      = (h ++ h.map (shiftObj h.length))
        ++ (h ++ h.map (shiftObj h.length)).map
            (shiftObj (h ++ h.map (shiftObj h.length)).length) := rfl

/-- The configuration copy is the root shifted past the original heap. -/
theorem init_copy_config_def (p : String) (s : List String)
    (config schema lm : Ref) (h : Heap) :
    (init p s config schema lm h).copy_config = shiftRef h.length config := rfl

/-- The schema copy is the root shifted past the once-copied heap. -/
theorem init_copy_schema_def (p : String) (s : List String)
    (config schema lm : Ref) (h : Heap) :
    (init p s config schema lm h).copy_schema
      = shiftRef (h ++ h.map (shiftObj h.length)).length schema := rfl

/-- After construction, `copy_config` denotes the same data as the
caller's configuration. -/
theorem init_config_structEq (p : String) (s : List String)
    (config schema lm : Ref) (h : Heap)
    (hc : ClosedHeap h) (hcf : RefIn h config) :
    StructEq (init p s config schema lm h).heap
      (init p s config schema lm h).copy_config h config := by
  intro fuel
  rw [init_heap_def, init_copy_config_def]
  have hext : readTree ((h ++ h.map (shiftObj h.length))
        ++ (h ++ h.map (shiftObj h.length)).map
            (shiftObj (h ++ h.map (shiftObj h.length)).length)) fuel
        (shiftRef h.length config)
      = readTree (h ++ h.map (shiftObj h.length)) fuel
        (shiftRef h.length config) := by
    apply readTree_extend _ _ (closedHeap_copy h hc)
    cases config with
    | imm v => trivial
    | addr a =>
      have ha : a < h.length := hcf
      show a + h.length < (h ++ h.map (shiftObj h.length)).length
      simp
      omega
  rw [hext, readTree_copy]

/-- After construction, `copy_schema` denotes the same data as the
caller's schema. -/
theorem init_schema_structEq (p : String) (s : List String)
    (config schema lm : Ref) (h : Heap)
    (hc : ClosedHeap h) (hsch : RefIn h schema) :
    StructEq (init p s config schema lm h).heap
      (init p s config schema lm h).copy_schema h schema := by
  intro fuel
  rw [init_heap_def, init_copy_schema_def, readTree_copy]
  exact readTree_extend h _ hc fuel schema hsch

/-- Everything at or past the original heap length in the constructed heap
points only at or past the original heap length. -/
theorem init_heap_high (p : String) (s : List String)
    (config schema lm : Ref) (h : Heap) :
    HighHeap (init p s config schema lm h).heap h.length := by
  rw [init_heap_def]
  apply highHeap_copy_mono
  · exact highHeap_copy_base h
  · simp

/-- The configuration copy's root lies at or past the original heap. -/
theorem init_copy_config_high (p : String) (s : List String)
    (config schema lm : Ref) (h : Heap) :
    RefHigh h.length (init p s config schema lm h).copy_config := by
  rw [init_copy_config_def]
  cases config with
  | imm v => trivial
  | addr a => exact Nat.le_add_left h.length a

/-- The schema copy's root lies at or past the original heap. -/
theorem init_copy_schema_high (p : String) (s : List String)
    (config schema lm : Ref) (h : Heap) :
    RefHigh h.length (init p s config schema lm h).copy_schema := by
  rw [init_copy_schema_def]
  cases schema with
  | imm v => trivial
  | addr a =>
    show h.length ≤ a + (h ++ h.map (shiftObj h.length)).length
    simp
    omega

end JSONScraperMultiGraph

/-- Deciding heap closure on concrete heaps. -/
theorem closedHeap_of_all (h : Heap)
    (hb : h.all (fun o => o.childAddrs.all (fun c => decide (c < h.length))) = true) :
    ClosedHeap h := by
  intro o ho r hr
  have h1 := List.all_eq_true.mp hb o ho
  have h2 := List.all_eq_true.mp h1 r hr
  exact of_decide_eq_true h2

namespace JSONScraperMultiGraph

/-- C1 (amended): when the engine returns a final state, `run` returns the
value stored under `"answer"` when that key is present, and the fallback
string `"No answer found."` when it is absent; the fallback is returned
only when the key is absent or its stored value is itself the fallback
string; and no key of the final state other than `"answer"` influences the
returned value. -/
theorem claim_C1 (g : JSONScraperMultiGraph) (e : Engine)
    (fs : List (String × PTree)) (ei : PTree)
    (he : e (run_inputs g) = .ok (fs, ei)) :
    (∀ v, stateGet fs "answer" = some v → (run g e).map Prod.fst = .ok v)
    ∧ (stateGet fs "answer" = none →
        (run g e).map Prod.fst = .ok (.leaf (.vstr "No answer found.")))
    ∧ ((run g e).map Prod.fst = .ok (.leaf (.vstr "No answer found.")) →
        stateGet fs "answer" = none
        ∨ stateGet fs "answer" = some (.leaf (.vstr "No answer found.")))
    ∧ (∀ (e' : Engine) fs' ei', e' (run_inputs g) = .ok (fs', ei') →
        stateGet fs' "answer" = stateGet fs "answer" →
        (run g e').map Prod.fst = (run g e).map Prod.fst) := by
  have hrun : run g e
      = .ok ((stateGet fs "answer").getD (.leaf (.vstr "No answer found.")),
          { g with final_state := some fs, execution_info := ei }) := by
    unfold run
    rw [he]
  refine ⟨?_, ?_, ?_, ?_⟩
  · intro v hv
    rw [hrun, hv]
    rfl
  · intro hn
    rw [hrun, hn]
    rfl
  · intro hfb
    rw [hrun] at hfb
    cases hv : stateGet fs "answer" with
    | none => exact Or.inl rfl
    | some v =>
      rw [hv] at hfb
      exact Or.inr (congrArg some (Except.ok.inj hfb))
  · intro e' fs' ei' he' hsame
    have hrun' : run g e'
        = .ok ((stateGet fs' "answer").getD (.leaf (.vstr "No answer found.")),
            { g with final_state := some fs', execution_info := ei' }) := by
      unfold run
      rw [he']
    rw [hrun, hrun', hsame]
    rfl

/-- C1 witness: the amended statement at a concrete graph and engine. -/
theorem claim_C1_witness :
    (run (init "p" ["s1"] (.imm .vnone) (.imm .vnone) (.imm .vnone) [])
        (fun _ => .ok ([("answer", .leaf (.vstr "42"))], .cutoff))).map Prod.fst
      = .ok (.leaf (.vstr "42")) :=
  (claim_C1 (init "p" ["s1"] (.imm .vnone) (.imm .vnone) (.imm .vnone) [])
      (fun _ => .ok ([("answer", .leaf (.vstr "42"))], .cutoff))
      [("answer", .leaf (.vstr "42"))] .cutoff rfl).1
    (.leaf (.vstr "42")) rfl

/-- C1 counterexample: with the key `"answer"` present and bound to the
string `"No answer found."` itself, `run` returns the fallback string even
though the key is not absent, refuting the claim's "if and only if". -/
theorem claim_C1_counterexample :
    stateGet [("answer", .leaf (.vstr "No answer found."))] "answer"
      = some (.leaf (.vstr "No answer found."))
    ∧ (run (init "p" [] (.imm .vnone) (.imm .vnone) (.imm .vnone) [])
        (fun _ => .ok ([("answer", .leaf (.vstr "No answer found."))],
          .cutoff))).map Prod.fst
      = .ok (.leaf (.vstr "No answer found.")) :=
  ⟨rfl, rfl⟩

end JSONScraperMultiGraph

namespace JSONScraperMultiGraph

/-- C2: `run` hands the engine an input mapping with exactly the two keys
`"user_prompt"` (bound to the construction prompt) and `"jsons"` (bound to
the construction source list, unmodified and in order), and the engine is
consulted only on that mapping. -/
theorem claim_C2 (p : String) (s : List String) (config schema lm : Ref)
    (h : Heap) :
    run_inputs (init p s config schema lm h)
      = [("user_prompt", .leaf (.vstr p)),
         ("jsons", .tlist (s.map (fun x => .leaf (.vstr x))))]
    ∧ (run_inputs (init p s config schema lm h)).map Prod.fst
      = ["user_prompt", "jsons"]
    ∧ ∀ e1 e2 : Engine,
        e1 (run_inputs (init p s config schema lm h))
          = e2 (run_inputs (init p s config schema lm h)) →
        run (init p s config schema lm h) e1
          = run (init p s config schema lm h) e2 := by
  refine ⟨rfl, rfl, fun e1 e2 hee => ?_⟩
  unfold run
  rw [hee]

/-- C2 witness: the input mapping at a concrete construction. -/
theorem claim_C2_witness :
    run_inputs (init "q" ["a", "b"] (.imm .vnone) (.imm .vnone) (.imm .vnone) [])
      = [("user_prompt", .leaf (.vstr "q")),
         ("jsons", .tlist [.leaf (.vstr "a"), .leaf (.vstr "b")])] :=
  (claim_C2 "q" ["a", "b"] (.imm .vnone) (.imm .vnone) (.imm .vnone) []).1

/-- C3: the created graph has exactly the two nodes (an iterator node and a
merge node), exactly one edge from the iterator to the merge node, the
iterator as entry point, and the class name as graph name; the constructed
object's graph is exactly this creation. -/
theorem claim_C3 (p : String) (s : List String) (config schema lm : Ref)
    (h : Heap) (cc cs lm' : Ref) :
    ((create_graph cc cs lm').nodes.length = 2
      ∧ ∃ it mn, (create_graph cc cs lm').nodes = [.iterator it, .merge mn]
          ∧ (create_graph cc cs lm').edges = [(.iterator it, .merge mn)]
          ∧ (create_graph cc cs lm').entry_point = .iterator it
          ∧ (create_graph cc cs lm').graph_name = "JSONScraperMultiGraph")
    ∧ (init p s config schema lm h).graph
        = create_graph (init p s config schema lm h).copy_config
            (init p s config schema lm h).copy_schema lm :=
  ⟨⟨rfl, _, _, rfl, rfl, rfl, rfl⟩, rfl⟩

/-- C3 witness: the shape at concrete references. -/
theorem claim_C3_witness :
    (create_graph (.imm .vnone) (.imm .vnone) (.imm .vnone)).nodes.length = 2 :=
  (claim_C3 "p" [] (.imm .vnone) (.imm .vnone) (.imm .vnone) []
      (.imm .vnone) (.imm .vnone) (.imm .vnone)).1.1

/-- C5: in the created graph, the iterator node consumes
`"user_prompt & jsons"` and outputs `["results"]`, running the
`JSONScraperGraph` sub-pipeline as its per-source graph instance, and the
merge node consumes `"user_prompt & results"` and outputs `["answer"]`. -/
theorem claim_C5 (cc cs lm : Ref) :
    ∃ it mn, (create_graph cc cs lm).nodes = [.iterator it, .merge mn]
      ∧ it.input = "user_prompt & jsons"
      ∧ it.output = ["results"]
      ∧ it.graph_instance = "JSONScraperGraph"
      ∧ mn.input = "user_prompt & results"
      ∧ mn.output = ["answer"] :=
  ⟨_, _, rfl, rfl, rfl, rfl, rfl, rfl⟩

/-- C5 witness: the node wiring at concrete references. -/
theorem claim_C5_witness :
    ∃ it mn, (create_graph (.imm .vnone) (.imm .vnone)
        (.imm .vnone)).nodes = [.iterator it, .merge mn]
      ∧ it.input = "user_prompt & jsons"
      ∧ it.output = ["results"]
      ∧ it.graph_instance = "JSONScraperGraph"
      ∧ mn.input = "user_prompt & results"
      ∧ mn.output = ["answer"] :=
  claim_C5 (.imm .vnone) (.imm .vnone) (.imm .vnone)

end JSONScraperMultiGraph

namespace JSONScraperMultiGraph

/-- C4: after construction, `copy_config` denotes the same data as the
caller's configuration and `copy_schema` the same data as the caller's
schema, and mutating any object of the caller's heap changes neither
copy. -/
theorem claim_C4 (p : String) (s : List String) (config schema lm : Ref)
    (h : Heap) (hc : ClosedHeap h) (hcf : RefIn h config)
    (hsch : RefIn h schema) :
    StructEq (init p s config schema lm h).heap
      (init p s config schema lm h).copy_config h config
    ∧ StructEq (init p s config schema lm h).heap
      (init p s config schema lm h).copy_schema h schema
    ∧ (∀ b, b < h.length → ∀ o fuel,
        readTree ((init p s config schema lm h).heap.set b o) fuel
            (init p s config schema lm h).copy_config
          = readTree (init p s config schema lm h).heap fuel
            (init p s config schema lm h).copy_config)
    ∧ (∀ b, b < h.length → ∀ o fuel,
        readTree ((init p s config schema lm h).heap.set b o) fuel
            (init p s config schema lm h).copy_schema
          = readTree (init p s config schema lm h).heap fuel
            (init p s config schema lm h).copy_schema) := by
  refine ⟨init_config_structEq p s config schema lm h hc hcf,
    init_schema_structEq p s config schema lm h hc hsch,
    fun b hb o fuel => ?_, fun b hb o fuel => ?_⟩
  · exact readTree_set _ h.length b o (init_heap_high p s config schema lm h)
      hb fuel _ (init_copy_config_high p s config schema lm h)
  · exact readTree_set _ h.length b o (init_heap_high p s config schema lm h)
      hb fuel _ (init_copy_schema_high p s config schema lm h)

/-- C4 witness: at a concrete two-object heap whose dict is the
configuration, the copied configuration reads back the original's tree. -/
theorem claim_C4_witness :
    StructEq (init "p" ["s"] (.addr 1) (.imm .vnone) (.imm .vnone)
        [.dct [("max_results", .imm (.vint 5))],
         .lst [.addr 0]]).heap
      (init "p" ["s"] (.addr 1) (.imm .vnone) (.imm .vnone)
        [.dct [("max_results", .imm (.vint 5))],
         .lst [.addr 0]]).copy_config
      [.dct [("max_results", .imm (.vint 5))],
       .lst [.addr 0]] (.addr 1) :=
  (claim_C4 "p" ["s"] (.addr 1) (.imm .vnone) (.imm .vnone)
      [.dct [("max_results", .imm (.vint 5))], .lst [.addr 0]]
      (closedHeap_of_all _ (by decide))
      (by show (1 : Nat) < 2; decide) trivial).1

/-- C6: `run` installs no handler: an engine error is returned unchanged,
with no fallback answer substituted. -/
theorem claim_C6 (g : JSONScraperMultiGraph) (e : Engine) (err : String)
    (he : e (run_inputs g) = .error err) :
    run g e = .error err := by
  unfold run
  rw [he]

/-- C6 witness: a concrete engine failure propagates through `run`. -/
theorem claim_C6_witness :
    run (init "p" [] (.imm .vnone) (.imm .vnone) (.imm .vnone) [])
        (fun _ => .error "engine failure")
      = .error "engine failure" :=
  claim_C6 (init "p" [] (.imm .vnone) (.imm .vnone) (.imm .vnone) [])
    (fun _ => .error "engine failure") "engine failure" rfl

/-- C7: `max_results` is the `"max_results"` entry of the original
configuration when present and the default `3` otherwise, and neither the
created graph nor the observable behaviour of `run` depends on it. -/
theorem claim_C7 (p : String) (s : List String) (config schema lm : Ref)
    (h : Heap) :
    (∀ r, dictGet h config "max_results" = some r →
      (init p s config schema lm h).max_results = r)
    ∧ (dictGet h config "max_results" = none →
      (init p s config schema lm h).max_results = .imm (.vint 3))
    ∧ (init p s config schema lm h).graph
        = create_graph (init p s config schema lm h).copy_config
            (init p s config schema lm h).copy_schema lm
    ∧ ∀ (x : Ref) (e : Engine),
        run { init p s config schema lm h with max_results := x } e
          = (run (init p s config schema lm h) e).map
              (fun q => (q.1, { q.2 with max_results := x })) := by
  refine ⟨fun r hr => ?_, fun hn => ?_, rfl, fun x e => ?_⟩
  · show (dictGet h config "max_results").getD (.imm (.vint 3)) = r
    rw [hr]
    rfl
  · show (dictGet h config "max_results").getD (.imm (.vint 3)) = .imm (.vint 3)
    rw [hn]
    rfl
  · unfold run
    rw [show run_inputs { init p s config schema lm h with max_results := x }
        = run_inputs (init p s config schema lm h) from rfl]
    cases e (run_inputs (init p s config schema lm h)) with
    | error err => rfl
    | ok q => rfl

/-- C7 witness: a configuration with `"max_results"` bound to `5` yields
`max_results = 5`; one without the key yields the default `3`. -/
theorem claim_C7_witness :
    (init "p" ["s"] (.addr 0) (.imm .vnone) (.imm .vnone)
        [.dct [("max_results", .imm (.vint 5))]]).max_results
      = .imm (.vint 5) :=
  (claim_C7 "p" ["s"] (.addr 0) (.imm .vnone) (.imm .vnone)
      [.dct [("max_results", .imm (.vint 5))]]).1 (.imm (.vint 5)) (by decide)

/-- C8: the iterator node's `scraper_config` is exactly `copy_config`, both
nodes' schema is exactly `copy_schema`, each copy is a different object
from the caller's argument, and mutating any object of the caller's heap
is invisible through every node's configuration. -/
theorem claim_C8 (p : String) (s : List String) (config schema lm : Ref)
    (h : Heap) :
    ∃ it mn,
      (init p s config schema lm h).graph.nodes = [.iterator it, .merge mn]
      ∧ it.scraper_config = (init p s config schema lm h).copy_config
      ∧ it.schema = (init p s config schema lm h).copy_schema
      ∧ mn.schema = (init p s config schema lm h).copy_schema
      ∧ (∀ a, config = .addr a → a < h.length → it.scraper_config ≠ config)
      ∧ (∀ a, schema = .addr a → a < h.length → it.schema ≠ schema)
      ∧ (∀ b, b < h.length → ∀ o fuel,
          readTree ((init p s config schema lm h).heap.set b o) fuel
              it.scraper_config
            = readTree (init p s config schema lm h).heap fuel
              it.scraper_config)
      ∧ (∀ b, b < h.length → ∀ o fuel,
          readTree ((init p s config schema lm h).heap.set b o) fuel it.schema
            = readTree (init p s config schema lm h).heap fuel it.schema) := by
  refine ⟨_, _, rfl, rfl, rfl, rfl, fun a hcfg ha hcontra => ?_,
    fun a hsch ha hcontra => ?_, fun b hb o fuel => ?_, fun b hb o fuel => ?_⟩
  · rw [hcfg] at hcontra
    have : a + h.length = a := Ref.addr.inj hcontra
    omega
  · rw [hsch] at hcontra
    have h1 : a + (h ++ h.map (shiftObj h.length)).length = a :=
      Ref.addr.inj hcontra
    have h2 : (h ++ h.map (shiftObj h.length)).length = h.length + h.length := by
      simp
    rw [h2] at h1
    omega
  · exact readTree_set _ h.length b o (init_heap_high p s config schema lm h)
      hb fuel _ (init_copy_config_high p s config schema lm h)
  · exact readTree_set _ h.length b o (init_heap_high p s config schema lm h)
      hb fuel _ (init_copy_schema_high p s config schema lm h)

/-- C8 witness: the node configuration identities at a concrete heap. -/
theorem claim_C8_witness :
    ∃ it mn,
      (init "p" ["s"] (.addr 0) (.imm .vnone) (.imm .vnone)
          [.dct [("max_results", .imm (.vint 5))]]).graph.nodes
        = [.iterator it, .merge mn]
      ∧ it.scraper_config
        = (init "p" ["s"] (.addr 0) (.imm .vnone) (.imm .vnone)
            [.dct [("max_results", .imm (.vint 5))]]).copy_config := by
  obtain ⟨it, mn, h1, h2, _⟩ := claim_C8 "p" ["s"] (.addr 0) (.imm .vnone)
    (.imm .vnone) [.dct [("max_results", .imm (.vint 5))]]
  exact ⟨it, mn, h1, h2⟩

/-- C9: `run` only sets `final_state` and `execution_info` (to the pair the
engine returned); every other attribute of the object is unchanged. -/
theorem claim_C9 (g : JSONScraperMultiGraph) (e : Engine)
    (fs : List (String × PTree)) (ei : PTree)
    (he : e (run_inputs g) = .ok (fs, ei)) :
    ∃ ans g', run g e = .ok (ans, g')
      ∧ g'.final_state = some fs
      ∧ g'.execution_info = ei
      ∧ g'.prompt = g.prompt
      ∧ g'.source = g.source
      ∧ g'.llm_model = g.llm_model
      ∧ g'.max_results = g.max_results
      ∧ g'.copy_config = g.copy_config
      ∧ g'.copy_schema = g.copy_schema
      ∧ g'.heap = g.heap
      ∧ g'.graph = g.graph := by
  unfold run
  rw [he]
  exact ⟨_, _, rfl, rfl, rfl, rfl, rfl, rfl, rfl, rfl, rfl, rfl, rfl⟩

/-- C9 witness: the frame condition at a concrete graph and engine. -/
theorem claim_C9_witness :
    ∃ ans g',
      run (init "p" ["s"] (.imm .vnone) (.imm .vnone) (.imm .vnone) [])
          (fun _ => .ok ([("answer", .leaf (.vstr "a"))], .cutoff))
        = .ok (ans, g')
      ∧ g'.final_state = some [("answer", .leaf (.vstr "a"))]
      ∧ g'.execution_info = .cutoff
      ∧ g'.prompt
        = (init "p" ["s"] (.imm .vnone) (.imm .vnone) (.imm .vnone) []).prompt := by
  obtain ⟨ans, g', h1, h2, h3, h4, _⟩ :=
    claim_C9 (init "p" ["s"] (.imm .vnone) (.imm .vnone) (.imm .vnone) [])
      (fun _ => .ok ([("answer", .leaf (.vstr "a"))], .cutoff))
      [("answer", .leaf (.vstr "a"))] .cutoff rfl
  exact ⟨ans, g', h1, h2, h3, h4⟩

end JSONScraperMultiGraph
